import Mathlib

/-!
Verification of the doctorVideoApi Express server against its specification.

The repository has two variants of the same server: `src/server.js`
(variant B: the merged video stays on disk as `final_video.webm` and is served
statically) and `src/unnamed/part_000` (variant A: the merged file
`<videoId>.webm` is pushed to Cloudinary and then unlinked).

Shallow embedding conventions:
* file contents are byte lists;
* the directory of one videoId is an association list filename to content,
  wrapped in `Option` (`none` means the path does not exist on disk);
* each route handler becomes a pure function from the state it touches to an
  HTTP status code plus the new state;
* fs errors that a handler can hit while unlinking are injected through a
  `bad : String → Bool` oracle saying which unlink calls throw;
* the MongoDB store is an association list from document id to document, and a
  document carries exactly the paths of `DoctorSchema` (mongoose schemas are
  strict by default, so writes outside those paths are never persisted).
-/

namespace DoctorVideo

/-- Raw bytes of one file. -/
abbrev Bytes := List Nat

/-- A directory: its files (name, content) in readdirSync order. -/
abbrev Dir := List (String × Bytes)

/-- A possibly missing directory: `none` when the path does not exist. -/
abbrev FsDir := Option Dir

/-- Lookup in an association list: content of the first entry with the key. -/
def lookupEntry {α : Type} (d : List (String × α)) (k : String) : Option α :=
  (d.find? (fun e => e.1 == k)).map (·.2)

/-- Write a key: replace the first entry with that key, else append. -/
def setEntry {α : Type} : List (String × α) → String → α → List (String × α)
  | [], k, v => [(k, v)]
  | e :: es, k, v => if e.1 = k then (k, v) :: es else e :: setEntry es k v

/-- fs.unlinkSync of one name: drop the first entry with that key. -/
def removeEntry {α : Type} : List (String × α) → String → List (String × α)
  | [], _ => []
  | e :: es, k => if e.1 = k then es else e :: removeEntry es k

/-- readdirSync: the filenames of a directory, in directory order. -/
def dirNames (d : Dir) : List String := d.map (·.1)

/-- The JavaScript test file.endsWith applied with suffix .webm, on the
character sequence of the filename. -/
def isWebmName (f : String) : Bool := List.isSuffixOf ".webm".data f.data

/-- The filter step of finalize: keep the filenames ending in .webm. -/
def webmNames (d : Dir) : List String := (dirNames d).filter isWebmName

/-- files.sort(): the JavaScript default sort compares strings by code unit,
which on these ASCII filenames is the lexicographic String order. -/
def sortNames (l : List String) : List String := l.insertionSort (· ≤ ·)

/-- The input files one finalize call reads, in concatenation order:
readdirSync, filter to .webm, lexicographic sort. -/
def finishInputs (d : Dir) : List String := sortNames (webmNames d)

/-- The byte concatenation finalize produces from a directory: the contents of
`finishInputs` in order, each read with readFileSync from the state as it was
before the stream opens (createWriteStream opens the output lazily, after the
synchronous read loop has completed). -/
def finishBytes (d : Dir) : Bytes :=
  ((finishInputs d).map (fun f => (lookupEntry d f).getD [])).flatten

/-- POST /finishUpload/:videoId of variant B (src/server.js lines 171 to 205),
acting on the directory of that videoId.  readdirSync on a missing directory
throws, and the catch answers 500.  With no .webm file the handler answers 400
before any output stream is opened.  Otherwise the concatenation is written to
final_video.webm when the stream finishes and the handler answers 200. -/
def finishUpload (s : FsDir) : Nat × FsDir :=
  match s with
  | none => (500, none)
  | some d =>
      if (finishInputs d).length = 0 then (400, some d)
      else (200, some (setEntry d "final_video.webm" (finishBytes d)))

/-- The unlink loop of the cleanup handlers: `bad` names the files whose
unlinkSync throws.  On the first throw the remaining entries (the throwing one
included) are still on disk. -/
def delFiles (bad : String → Bool) : Dir → Except Dir Unit
  | [] => Except.ok ()
  | e :: es => if bad e.1 then Except.error (e :: es) else delFiles bad es

/-- DELETE /deleteVideo/:videoId (identical in both variants), acting on the
directory of that videoId: a missing directory is skipped and the route still
answers 200; otherwise every file is unlinked and the directory removed, any
fs error being turned into a 500 by the catch. -/
def deleteVideo (bad : String → Bool) (s : FsDir) : Nat × FsDir :=
  match s with
  | none => (200, none)
  | some d =>
      match delFiles bad d with
      | Except.ok _ => (200, none)
      | Except.error rest => (500, some rest)

/-- C2: finalize on a directory that exists but holds no .webm file answers
400 and leaves the directory untouched, so no output file is created; but on a
videoId whose directory does not exist, readdirSync throws and the handler
answers 500, not 400 (this is the amended part). -/
theorem finish_no_chunks (d : Dir) (h : webmNames d = []) :
    finishUpload (some d) = (400, some d) ∧ finishUpload none = (500, none) := by
  constructor
  · simp [finishUpload, finishInputs, sortNames, h]
  · rfl

/-- Witness for `finish_no_chunks` on a directory holding one non webm file. -/
theorem finish_no_chunks_witness :
    finishUpload (some [("note.txt", [1, 2])]) = (400, some [("note.txt", [1, 2])]) ∧
      finishUpload none = (500, none) :=
  finish_no_chunks [("note.txt", [1, 2])] (by decide)

/-- C2 counterexample: the claim says finalize on a videoId whose directory
does not exist answers 400; the code answers 500 there. -/
theorem finish_missing_dir_not_400 : (finishUpload none).1 = 500 ∧ (finishUpload none).1 ≠ 400 := by
  decide

/-- C7: video artifact cleanup is idempotent: on a missing directory it
answers 200 and changes nothing, and after any call that answered 200 (which
always leaves the directory gone) a second call answers 200 again and changes
nothing, whatever fs error oracle governs either call. -/
theorem deleteVideo_idempotent (bad bad2 : String → Bool) (s s2 : FsDir)
    (h : deleteVideo bad s = (200, s2)) :
    deleteVideo bad2 none = (200, none) ∧ s2 = none ∧ deleteVideo bad2 s2 = (200, s2) := by
  have h2 : s2 = none := by
    match s with
    | none => simpa [deleteVideo] using (congrArg Prod.snd h).symm
    | some d =>
        simp only [deleteVideo] at h
        cases hd : delFiles bad d with
        | ok u => rw [hd] at h; simpa using (congrArg Prod.snd h).symm
        | error rest => rw [hd] at h; simp at h
  subst h2
  exact ⟨rfl, rfl, rfl⟩

/-- Witness for `deleteVideo_idempotent`: delete a two file directory, then
delete again. -/
theorem deleteVideo_idempotent_witness :
    deleteVideo (fun _ => false) none = (200, none) ∧
      (none : FsDir) = none ∧ deleteVideo (fun _ => false) none = (200, none) :=
  deleteVideo_idempotent (fun _ => false) (fun _ => false)
    (some [("a.webm", [1]), ("b.webm", [2])]) none rfl

/-! ## Doctor documents and CRUD routes -/

/-- A doctor document as MongoDB stores it: exactly the paths declared in
DoctorSchema (src/server.js lines 46 to 53, identical in part_000).  The
schema notably has no videoUrl path; mongoose schemas are strict by default,
so a value assigned outside these paths is never persisted. -/
structure DoctorDoc where
  name : Option String
  designation : Option String
  degree : Option String
  mobile : Option String
  email : Option String
  videoId : Option String
deriving Repr, DecidableEq

/-- A JSON body sent to the doctor routes: the five client supplied schema
fields, plus arbitrary extra fields (the Joi validator allows unknown keys). -/
structure Payload where
  name : Option String
  designation : Option String
  degree : Option String
  mobile : Option String
  email : Option String
  extra : List (String × String)
deriving Repr, DecidableEq

/-- Split a character list at every occurrence of a separator character. -/
def splitOnChar (c : Char) : List Char → List (List Char)
  | [] => [[]]
  | x :: xs =>
      let r := splitOnChar c xs
      if x = c then [] :: r
      else
        match r with
        | [] => [[x]]
        | y :: ys => (x :: y) :: ys

/-- Model of the external Joi email check at the level the claims need: one @
splitting a non empty local part from a domain of at least two non empty dot
separated labels. -/
def emailValid (s : String) : Bool :=
  match splitOnChar '@' s.data with
  | [loc, domain] =>
      !loc.isEmpty && decide (2 ≤ (splitOnChar '.' domain).length) &&
        (splitOnChar '.' domain).all (fun l => !l.isEmpty)
  | _ => false

/-- The Joi schema of src/server.js lines 59 to 62: name a required non empty
string, email required and well formed, unknown keys allowed. -/
def validateDoctor (p : Payload) : Bool :=
  (match p.name with | some n => n != "" | none => false) &&
    (match p.email with | some e => emailValid e | none => false)

/-- new Doctor of the spread body plus a generated videoId: the model keeps
only the schema paths, so the extra fields of the body are dropped. -/
def mkDoctor (p : Payload) (vid : String) : DoctorDoc :=
  { name := p.name, designation := p.designation, degree := p.degree,
    mobile := p.mobile, email := p.email, videoId := some vid }

/-- One optional field of a JSON object, as a key value list. -/
def optField (k : String) (v : Option String) : List (String × String) :=
  match v with
  | none => []
  | some s => [(k, s)]

/-- The JSON field list of a stored document. -/
def docFields (d : DoctorDoc) : List (String × String) :=
  optField "name" d.name ++ optField "designation" d.designation ++
    optField "degree" d.degree ++ optField "mobile" d.mobile ++
    optField "email" d.email ++ optField "videoId" d.videoId

/-- The JSON field list of a submitted payload, extra fields last. -/
def payloadFields (p : Payload) : List (String × String) :=
  optField "name" p.name ++ optField "designation" p.designation ++
    optField "degree" p.degree ++ optField "mobile" p.mobile ++
    optField "email" p.email ++ p.extra

/-- The doctor collection: store assigned document id mapped to document. -/
abbrev Store := List (String × DoctorDoc)

/-- findById and findOne by id. -/
def findById (store : Store) (id : String) : Option DoctorDoc :=
  lookupEntry store id

/-- POST /doctors (src/server.js lines 88 to 106): validate the body, build
the document with the generated videoId `vid` (uuidv4 modelled as an input),
save it under the store assigned id `newId`, answer 201 with the document. -/
def createDoctor (store : Store) (p : Payload) (newId vid : String) :
    Nat × Option DoctorDoc × Store :=
  if validateDoctor p then
    let doc := mkDoctor p vid
    (201, some doc, store ++ [(newId, doc)])
  else (400, none, store)

/-- findByIdAndUpdate applying the body as a partial update: each schema path
present in the body is set, the rest kept; non schema fields are dropped. -/
def updateDoc (d : DoctorDoc) (p : Payload) : DoctorDoc :=
  { name := (p.name).orElse (fun _ => d.name),
    designation := (p.designation).orElse (fun _ => d.designation),
    degree := (p.degree).orElse (fun _ => d.degree),
    mobile := (p.mobile).orElse (fun _ => d.mobile),
    email := (p.email).orElse (fun _ => d.email),
    videoId := d.videoId }

/-- PUT /doctors/:id (src/server.js lines 109 to 117): validate, then
findByIdAndUpdate with the new document returned.  When no document has the
id, findByIdAndUpdate yields null and res.json(null) answers with the default
status 200 and a null body; the store is unchanged (no upsert). -/
def putDoctor (store : Store) (id : String) (p : Payload) :
    Nat × Option DoctorDoc × Store :=
  if validateDoctor p then
    match findById store id with
    | none => (200, none, store)
    | some d =>
        let d2 := updateDoc d p
        (200, some d2, setEntry store id d2)
  else (400, none, store)

/-- Drop a document by id. -/
def removeById (store : Store) (id : String) : Store :=
  store.filter (fun e => e.1 != id)

/-- DELETE /doctors/:id of variant B (src/server.js lines 120 to 143): remove
the document; when it existed, unlink every file of its videoId directory and
remove the directory.  A missing directory is only logged and the route still
answers 200, but an fs error thrown while unlinking reaches the catch and the
route answers 500 even though the document is already deleted.  `dir` is the
directory of the videoId stored on the deleted doctor. -/
def deleteDoctorB (store : Store) (dir : FsDir) (bad : String → Bool) (id : String) :
    Nat × Store × FsDir :=
  match findById store id with
  | none => (404, store, dir)
  | some _ =>
      let store2 := removeById store id
      match dir with
      | none => (200, store2, none)
      | some d =>
          match delFiles bad d with
          | Except.ok _ => (200, store2, none)
          | Except.error rest => (500, store2, some rest)

/-- A valid payload with no extra fields, used as concrete input. -/
def samplePayload : Payload :=
  { name := some "Alice", designation := none, degree := none,
    mobile := none, email := some "a@x.com", extra := [] }

/-- The same payload carrying one extra field. -/
def extraPayload : Payload :=
  { samplePayload with extra := [("foo", "bar")] }

/-- C4 (amended): an update whose valid payload targets an id no stored doctor
has does not answer 404: findByIdAndUpdate yields null, res.json(null) answers
200 with a null body, and the store is unchanged (nothing created, nothing
modified). -/
theorem putDoctor_missing_id (store : Store) (id : String) (p : Payload)
    (hv : validateDoctor p = true) (h : findById store id = none) :
    putDoctor store id p = (200, none, store) := by
  simp [putDoctor, hv, h]

/-- Witness for `putDoctor_missing_id` on the empty store. -/
theorem putDoctor_missing_id_witness :
    validateDoctor samplePayload = true ∧
      putDoctor [] "a1" samplePayload = (200, none, []) :=
  ⟨by decide, putDoctor_missing_id [] "a1" samplePayload (by decide) rfl⟩

/-- C4 counterexample: the claim says the operation fails with 404; on the
empty store with a valid payload it answers 200, not 404. -/
theorem putDoctor_missing_id_not_404 :
    (putDoctor [] "a1" samplePayload).1 = 200 ∧ (putDoctor [] "a1" samplePayload).1 ≠ 404 := by
  decide

/-- C5 (amended): creating a doctor from a valid payload answers 201 with a
document carrying the generated videoId; when that videoId differs from every
stored one the new document is the only one carrying it; and the persisted
document equals the submitted payload restricted to the schema fields plus the
added videoId: extra fields are dropped by the strict schema. -/
theorem createDoctor_ok (store : Store) (p : Payload) (newId vid : String)
    (hv : validateDoctor p = true) (hextra : p.extra = [])
    (hfresh : ∀ e ∈ store, (e.2).videoId ≠ some vid) :
    createDoctor store p newId vid =
        (201, some (mkDoctor p vid), store ++ [(newId, mkDoctor p vid)]) ∧
      (mkDoctor p vid).videoId = some vid ∧
      (∀ e ∈ store, (e.2).videoId ≠ (mkDoctor p vid).videoId) ∧
      docFields (mkDoctor p vid) = payloadFields p ++ [("videoId", vid)] := by
  refine ⟨by simp [createDoctor, hv], rfl, hfresh, ?_⟩
  simp [docFields, payloadFields, mkDoctor, optField, hextra]

/-- Witness for `createDoctor_ok`: a store holding one doctor with videoId v0,
a creation generating videoId v1. -/
theorem createDoctor_ok_witness :
    validateDoctor samplePayload = true ∧
      (createDoctor [("d0", mkDoctor samplePayload "v0")] samplePayload "d1" "v1").1 = 201 ∧
      docFields (mkDoctor samplePayload "v1") =
        payloadFields samplePayload ++ [("videoId", "v1")] :=
  ⟨by decide,
    by
      have h := createDoctor_ok [("d0", mkDoctor samplePayload "v0")] samplePayload "d1" "v1"
        (by decide) rfl (by decide)
      exact ⟨by rw [h.1], h.2.2.2⟩⟩

/-- C5 counterexample: with an extra field foo in the payload, the persisted
document is not the payload plus videoId: the extra field is gone. -/
theorem createDoctor_drops_extra :
    (createDoctor [] extraPayload "d1" "v1").2.2 = [("d1", mkDoctor extraPayload "v1")] ∧
      docFields (mkDoctor extraPayload "v1") ≠ payloadFields extraPayload ++ [("videoId", "v1")] := by
  decide

/-! ## Variant A finalize (part_000) and doctor deletion with fs errors -/

/-- Cloudinary state: public id mapped to the secure URL of the hosted video. -/
abbrev Cloud := List (String × String)

/-- findOne by videoId. -/
def findByVideoId (store : Store) (vid : String) : Option DoctorDoc :=
  (store.map (·.2)).find? (fun d => d.videoId == some vid)

/-- POST /finishUpload/:videoId of variant A (src/unnamed/part_000 lines 180
to 247).  Same read, filter, sort and concatenate steps as variant B, but the
output file is named videoId.webm; when the stream finishes the handler looks
the doctor up by videoId (only its name feeds the caption overlay, which is
not modelled), uploads the file to Cloudinary under public id
videoId/final_video (secure URL abstracted as urlOf videoId), unlinks the
local output file, then runs doctor.videoUrl = url; doctor.save().  That save
persists nothing: videoUrl is not a DoctorSchema path, so the strict schema
drops it and the store is returned unchanged.  When no doctor has the videoId
the handler reads .videoUrl on null after the unlink, throws, and the catch
answers 500.  Result: status, response URL, store, cloud, directory. -/
def finishUploadA (vid : String) (dir : FsDir) (store : Store) (cloud : Cloud)
    (urlOf : String → String) : Nat × Option String × Store × Cloud × FsDir :=
  match dir with
  | none => (500, none, store, cloud, none)
  | some d =>
      if (finishInputs d).length = 0 then (400, none, store, cloud, some d)
      else
        let outName := vid ++ ".webm"
        let d1 := setEntry d outName (finishBytes d)
        let cloud2 := setEntry cloud (vid ++ "/final_video") (urlOf vid)
        let d2 := removeEntry d1 outName
        match findByVideoId store vid with
        | none => (500, none, store, cloud2, some d2)
        | some _ => (200, some (urlOf vid), store, cloud2, some d2)

/-- Removing a key just written over a list that never had it restores the
original list. -/
theorem removeEntry_setEntry {α : Type} (d : List (String × α)) (k : String) (v : α)
    (h : ∀ e ∈ d, e.1 ≠ k) : removeEntry (setEntry d k v) k = d := by
  induction d with
  | nil => simp [setEntry, removeEntry]
  | cons e es ih =>
      have he : e.1 ≠ k := h e (List.mem_cons_self e es)
      simp only [setEntry, he, if_false, removeEntry]
      rw [ih (fun x hx => h x (List.mem_cons_of_mem e hx))]

/-- C3: on a successful variant A finalize of a videoId owned by a stored
doctor, the remote URL is returned and the local concatenated file deleted,
but nothing is persisted on the doctor document: videoUrl is not a schema
path, so doctor.save() drops it and the store comes back unchanged (the claim
says the URL is persisted; the code cannot do that). -/
theorem finishA_no_persist (vid : String) (d : Dir) (store : Store) (cloud : Cloud)
    (urlOf : String → String) (doc : DoctorDoc)
    (hchunks : (finishInputs d).length ≠ 0)
    (hout : ∀ e ∈ d, e.1 ≠ vid ++ ".webm")
    (hdoc : findByVideoId store vid = some doc) :
    finishUploadA vid (some d) store cloud urlOf =
      (200, some (urlOf vid), store,
        setEntry cloud (vid ++ "/final_video") (urlOf vid), some d) := by
  simp only [finishUploadA, hchunks, if_false, hdoc, removeEntry_setEntry d _ _ hout]

/-- Witness for `finishA_no_persist`: one stored doctor owning videoId v0, a
directory holding one chunk. -/
theorem finishA_no_persist_witness :
    finishUploadA "v0" (some [("100-a.webm", [7])]) [("d0", mkDoctor samplePayload "v0")] []
        (fun v => "https://cdn/" ++ v) =
      (200, some "https://cdn/v0", [("d0", mkDoctor samplePayload "v0")],
        [("v0/final_video", "https://cdn/v0")], some [("100-a.webm", [7])]) :=
  finishA_no_persist "v0" [("100-a.webm", [7])] [("d0", mkDoctor samplePayload "v0")] []
    (fun v => "https://cdn/" ++ v) (mkDoctor samplePayload "v0")
    (by decide) (by decide) (by decide)

/-- C6 (amended): when the document exists and is removed but an fs error is
thrown while unlinking the artifact files, the handler catch answers 500, not
200: the failure is not swallowed, even though the document is already gone
and stays gone. -/
theorem deleteDoctorB_fs_error (store : Store) (d : Dir) (bad : String → Bool)
    (id : String) (doc : DoctorDoc) (rest : Dir)
    (hdoc : findById store id = some doc)
    (hbad : delFiles bad d = Except.error rest) :
    deleteDoctorB store (some d) bad id = (500, removeById store id, some rest) := by
  simp only [deleteDoctorB, hdoc, hbad]

/-- Witness for `deleteDoctorB_fs_error`: a one doctor store whose single
artifact file fails to unlink. -/
theorem deleteDoctorB_fs_error_witness :
    deleteDoctorB [("d0", mkDoctor samplePayload "v0")] (some [("100-a.webm", [7])])
        (fun _ => true) "d0" =
      (500, removeById [("d0", mkDoctor samplePayload "v0")] "d0", some [("100-a.webm", [7])]) :=
  deleteDoctorB_fs_error [("d0", mkDoctor samplePayload "v0")] [("100-a.webm", [7])]
    (fun _ => true) "d0" (mkDoctor samplePayload "v0") [("100-a.webm", [7])] (by decide) rfl

/-- C6 counterexample: the claim says such a failure leaves the response a 200
success; here the document is removed, the unlink fails, and the response is
500. -/
theorem deleteDoctorB_fs_error_not_200 :
    (deleteDoctorB [("d0", mkDoctor samplePayload "v0")] (some [("100-a.webm", [7])])
        (fun _ => true) "d0").1 = 500 ∧
      (deleteDoctorB [("d0", mkDoctor samplePayload "v0")] (some [("100-a.webm", [7])])
        (fun _ => true) "d0").2.1 = [] ∧
      (deleteDoctorB [("d0", mkDoctor samplePayload "v0")] (some [("100-a.webm", [7])])
        (fun _ => true) "d0").1 ≠ 200 := by
  decide

/-! ## Chunk filenames and the concatenation order of finalize -/

/-- A decimal digit as its ASCII character. -/
def digitChar (d : Nat) : Char := Char.ofNat (48 + d)

/-- The decimal numeral of a JavaScript integer, as its character list (big
endian). -/
def decChars (n : Nat) : List Char :=
  if n = 0 then ['0'] else ((Nat.digits 10 n).reverse).map digitChar

/-- The multer chunk filename: Date.now(), a dash, the original client
filename (src/server.js lines 154 to 156). -/
def tsName (ts : Nat) (orig : String) : String :=
  ⟨decChars ts ++ '-' :: orig.data⟩

/-- One uploaded chunk: arrival timestamp, original filename, content. -/
structure Chunk where
  ts : Nat
  orig : String
  content : Bytes
deriving Repr, DecidableEq

/-- The directory entry one chunk upload writes. -/
def chunkEntry (c : Chunk) : String × Bytes := (tsName c.ts c.orig, c.content)

/-- The chunks in ascending numeric timestamp order. -/
def sortByTs (cs : List Chunk) : List Chunk :=
  cs.insertionSort (fun a b => a.ts ≤ b.ts)

instance : DecidableRel (fun a b : Chunk => a.ts ≤ b.ts) :=
  fun a b => Nat.decLe a.ts b.ts

instance : IsTotal Chunk (fun a b : Chunk => a.ts ≤ b.ts) :=
  ⟨fun a b => Nat.le_total a.ts b.ts⟩

instance : IsTrans Chunk (fun a b : Chunk => a.ts ≤ b.ts) :=
  ⟨fun _ _ _ h h2 => Nat.le_trans h h2⟩

/-- Numeric value of a big endian digit list. -/
def valBE (L : List Nat) : Nat := Nat.ofDigits 10 L.reverse

theorem valBE_cons (d : Nat) (T : List Nat) :
    valBE (d :: T) = d * 10 ^ T.length + valBE T := by
  unfold valBE
  rw [List.reverse_cons, Nat.ofDigits_append]
  simp [Nat.ofDigits_singleton, List.length_reverse]
  ring

theorem valBE_lt (L : List Nat) (h : ∀ d ∈ L, d < 10) : valBE L < 10 ^ L.length := by
  induction L with
  | nil => simp [valBE]
  | cons d T ih =>
      rw [valBE_cons]
      have hd : d < 10 := h d (List.mem_cons_self d T)
      have hT := ih (fun x hx => h x (List.mem_cons_of_mem d hx))
      calc d * 10 ^ T.length + valBE T < d * 10 ^ T.length + 10 ^ T.length := by omega
        _ = (d + 1) * 10 ^ T.length := by ring
        _ ≤ 10 * 10 ^ T.length := Nat.mul_le_mul_right _ (by omega)
        _ = 10 ^ (d :: T).length := by rw [List.length_cons, pow_succ]; ring

theorem valBE_digits (n : Nat) : valBE ((Nat.digits 10 n).reverse) = n := by
  unfold valBE
  rw [List.reverse_reverse, Nat.ofDigits_digits]

theorem digitChar_lt {d1 d2 : Nat} (h : d1 < d2) (h2 : d2 < 10) :
    digitChar d1 < digitChar d2 := by
  have h1 : d1 < 10 := Nat.lt_trans h h2
  revert h
  interval_cases d1 <;> interval_cases d2 <;> decide

/-- Strictly smaller equal width big endian numerals are lexicographically
strictly below, whatever text follows them. -/
theorem lex_digits (D1 : List Nat) : ∀ (D2 : List Nat), D1.length = D2.length →
    (∀ d ∈ D1, d < 10) → (∀ d ∈ D2, d < 10) → valBE D1 < valBE D2 →
    ∀ (r1 r2 : List Char),
      List.Lex (· < ·) (D1.map digitChar ++ r1) (D2.map digitChar ++ r2) := by
  induction D1 with
  | nil =>
      intro D2 hlen _ _ hv r1 r2
      cases D2 with
      | nil => simp [valBE] at hv
      | cons d T => simp at hlen
  | cons d1 T1 ih =>
      intro D2 hlen h1 h2 hv r1 r2
      cases D2 with
      | nil => simp at hlen
      | cons d2 T2 =>
          have hlen2 : T1.length = T2.length := by simpa using hlen
          have hd1 : d1 < 10 := h1 d1 (List.mem_cons_self d1 T1)
          have hd2 : d2 < 10 := h2 d2 (List.mem_cons_self d2 T2)
          simp only [List.map_cons, List.cons_append]
          rcases Nat.lt_trichotomy d1 d2 with hlt | heq | hgt
          · exact List.Lex.rel (digitChar_lt hlt hd2)
          · subst heq
            apply List.Lex.cons
            apply ih T2 hlen2 (fun x hx => h1 x (List.mem_cons_of_mem d1 hx))
              (fun x hx => h2 x (List.mem_cons_of_mem d1 hx))
            rw [valBE_cons, valBE_cons, hlen2] at hv
            omega
          · exfalso
            have hb2 : valBE T2 < 10 ^ T2.length :=
              valBE_lt T2 (fun x hx => h2 x (List.mem_cons_of_mem d2 hx))
            rw [valBE_cons, valBE_cons, hlen2] at hv
            have h6 : (d2 + 1) * 10 ^ T2.length ≤ d1 * 10 ^ T2.length :=
              Nat.mul_le_mul_right _ (Nat.succ_le_of_lt hgt)
            have h7 : (d2 + 1) * 10 ^ T2.length = d2 * 10 ^ T2.length + 10 ^ T2.length := by
              ring
            omega

/-- Chunk filenames whose timestamps have equal decimal width order by
timestamp. -/
theorem tsName_lt {ts1 ts2 : Nat} (o1 o2 : String) {w : Nat}
    (hp1 : 0 < ts1) (hp2 : 0 < ts2)
    (hw1 : (decChars ts1).length = w) (hw2 : (decChars ts2).length = w)
    (hlt : ts1 < ts2) : tsName ts1 o1 < tsName ts2 o2 := by
  rw [String.lt_iff_toList_lt]
  have e1 : (tsName ts1 o1).toList = decChars ts1 ++ '-' :: o1.data := rfl
  have e2 : (tsName ts2 o2).toList = decChars ts2 ++ '-' :: o2.data := rfl
  rw [e1, e2]
  have d1 : decChars ts1 = ((Nat.digits 10 ts1).reverse).map digitChar := by
    unfold decChars
    rw [if_neg (Nat.pos_iff_ne_zero.mp hp1)]
  have d2 : decChars ts2 = ((Nat.digits 10 ts2).reverse).map digitChar := by
    unfold decChars
    rw [if_neg (Nat.pos_iff_ne_zero.mp hp2)]
  have hlen : ((Nat.digits 10 ts1).reverse).length = ((Nat.digits 10 ts2).reverse).length := by
    have l1 := hw1
    have l2 := hw2
    rw [d1, List.length_map] at l1
    rw [d2, List.length_map] at l2
    rw [l1, l2]
  show List.Lex (· < ·) (decChars ts1 ++ '-' :: o1.data) (decChars ts2 ++ '-' :: o2.data)
  rw [d1, d2]
  apply lex_digits _ _ hlen
  · exact fun x hx => Nat.digits_lt_base (by norm_num) (List.mem_reverse.mp hx)
  · exact fun x hx => Nat.digits_lt_base (by norm_num) (List.mem_reverse.mp hx)
  · rw [valBE_digits, valBE_digits]
    exact hlt

/-- A timestamp between two consecutive powers of ten has fixed decimal
width. -/
theorem decChars_length {w ts : Nat} (hlow : 10 ^ w ≤ ts) (hhigh : ts < 10 ^ (w + 1)) :
    (decChars ts).length = w + 1 := by
  have hpos : ts ≠ 0 := by
    have : 0 < 10 ^ w := Nat.pos_pow_of_pos w (by norm_num)
    omega
  unfold decChars
  rw [if_neg hpos, List.length_map, List.length_reverse,
    Nat.digits_len 10 ts (by norm_num) hpos,
    Nat.log_eq_of_pow_le_of_lt_pow hlow hhigh]

/-- The chunk name of a chunk. -/
def chunkName (c : Chunk) : String := tsName c.ts c.orig

/-- A pairwise relation strengthens under a pointwise implication that may
use membership. -/
theorem pairwise_imp_mem {α : Type} {R S : α → α → Prop} :
    ∀ {l : List α}, (∀ a ∈ l, ∀ b ∈ l, R a b → S a b) → l.Pairwise R → l.Pairwise S := by
  intro l
  induction l with
  | nil => exact fun _ _ => List.Pairwise.nil
  | cons x xs ih =>
      intro h hp
      rcases List.pairwise_cons.mp hp with ⟨hx, hxs⟩
      refine List.pairwise_cons.mpr ⟨?_, ?_⟩
      · exact fun b hb =>
          h x (List.mem_cons_self x xs) b (List.mem_cons_of_mem x hb) (hx b hb)
      · exact ih (fun a ha b hb => h a (List.mem_cons_of_mem x ha) b (List.mem_cons_of_mem x hb))
          hxs

/-- Two pairwise relations hold jointly. -/
theorem pairwise_and {α : Type} {R S : α → α → Prop} :
    ∀ {l : List α}, l.Pairwise R → l.Pairwise S → l.Pairwise (fun a b => R a b ∧ S a b) := by
  intro l
  induction l with
  | nil => exact fun _ _ => List.Pairwise.nil
  | cons x xs ih =>
      intro h1 h2
      rcases List.pairwise_cons.mp h1 with ⟨hx1, hxs1⟩
      rcases List.pairwise_cons.mp h2 with ⟨hx2, hxs2⟩
      exact List.pairwise_cons.mpr ⟨fun b hb => ⟨hx1 b hb, hx2 b hb⟩, ih hxs1 hxs2⟩

/-- Distinct same width timestamps give distinct chunk names. -/
theorem chunkName_pairwise_ne (w : Nat) (cs : List Chunk)
    (hw : ∀ c ∈ cs, 10 ^ w ≤ c.ts ∧ c.ts < 10 ^ (w + 1))
    (hdist : cs.Pairwise (fun a b => a.ts ≠ b.ts)) :
    cs.Pairwise (fun a b => chunkName a ≠ chunkName b) := by
  apply pairwise_imp_mem (R := fun a b => a.ts ≠ b.ts) ?_ hdist
  intro a ha b hb hab
  have hpa : 0 < a.ts := lt_of_lt_of_le (Nat.pos_pow_of_pos w (by norm_num)) (hw a ha).1
  have hpb : 0 < b.ts := lt_of_lt_of_le (Nat.pos_pow_of_pos w (by norm_num)) (hw b hb).1
  have hwa : (decChars a.ts).length = w + 1 := decChars_length (hw a ha).1 (hw a ha).2
  have hwb : (decChars b.ts).length = w + 1 := decChars_length (hw b hb).1 (hw b hb).2
  rcases Nat.lt_or_ge a.ts b.ts with h | h
  · exact ne_of_lt (tsName_lt a.orig b.orig hpa hpb hwa hwb h)
  · have h2 : b.ts < a.ts := by omega
    exact ne_of_gt (tsName_lt b.orig a.orig hpb hpa hwb hwa h2)

/-- Chunk filenames keep the .webm ending of the original filename. -/
theorem isWebm_tsName (ts : Nat) (orig : String) (h : isWebmName orig = true) :
    isWebmName (tsName ts orig) = true := by
  rw [isWebmName, List.isSuffixOf_iff_suffix] at h ⊢
  have e : (tsName ts orig).data = (decChars ts ++ ['-']) ++ orig.data := by
    show decChars ts ++ '-' :: orig.data = _
    simp
  rw [e]
  exact h.trans (List.suffix_append _ _)

/-- The filter step keeps every chunk file. -/
theorem webmNames_chunks (cs : List Chunk) (hwebm : ∀ c ∈ cs, isWebmName c.orig = true) :
    webmNames (cs.map chunkEntry) = cs.map chunkName := by
  unfold webmNames dirNames
  rw [List.map_map]
  have e : (fun (e : String × Bytes) => e.1) ∘ chunkEntry = chunkName := rfl
  rw [e]
  apply List.filter_eq_self.mpr
  intro a ha
  rcases List.mem_map.mp ha with ⟨c, hc, rfl⟩
  exact isWebm_tsName _ _ (hwebm c hc)

/-- The lexicographic filename sort of finalize equals the ascending numeric
timestamp sort when all timestamps share one decimal width and are distinct. -/
theorem sortNames_chunks (w : Nat) (cs : List Chunk)
    (hw : ∀ c ∈ cs, 10 ^ w ≤ c.ts ∧ c.ts < 10 ^ (w + 1))
    (hdist : cs.Pairwise (fun a b => a.ts ≠ b.ts)) :
    sortNames (cs.map chunkName) = (sortByTs cs).map chunkName := by
  apply List.eq_of_perm_of_sorted (r := fun a b : String => a ≤ b)
  · exact (List.perm_insertionSort _ _).trans
      ((List.perm_insertionSort (fun a b : Chunk => a.ts ≤ b.ts) cs).map chunkName).symm
  · exact List.sorted_insertionSort _ _
  · have hsort : (sortByTs cs).Pairwise (fun a b => a.ts ≤ b.ts) :=
      List.sorted_insertionSort _ cs
    have hperm : (sortByTs cs).Perm cs := List.perm_insertionSort _ cs
    have hdist2 : (sortByTs cs).Pairwise (fun a b => a.ts ≠ b.ts) :=
      (hperm.pairwise_iff (fun h e => h e.symm)).mpr hdist
    have hlt : (sortByTs cs).Pairwise (fun a b => a.ts < b.ts) :=
      (pairwise_and hsort hdist2).imp (fun h => lt_of_le_of_ne h.1 h.2)
    rw [List.Sorted, List.pairwise_map]
    apply pairwise_imp_mem (R := fun a b => a.ts < b.ts) ?_ hlt
    intro a ha b hb hab
    have ha2 : a ∈ cs := (List.mem_insertionSort _).mp ha
    have hb2 : b ∈ cs := (List.mem_insertionSort _).mp hb
    have hpa : 0 < a.ts := lt_of_lt_of_le (Nat.pos_pow_of_pos w (by norm_num)) (hw a ha2).1
    have hpb : 0 < b.ts := lt_of_lt_of_le (Nat.pos_pow_of_pos w (by norm_num)) (hw b hb2).1
    exact le_of_lt (tsName_lt a.orig b.orig hpa hpb
      (decChars_length (hw a ha2).1 (hw a ha2).2) (decChars_length (hw b hb2).1 (hw b hb2).2) hab)

/-- readFileSync finds the content of a chunk among the written entries. -/
theorem lookup_chunkEntry (cs : List Chunk)
    (hnd : cs.Pairwise (fun a b => chunkName a ≠ chunkName b)) :
    ∀ c ∈ cs, lookupEntry (cs.map chunkEntry) (chunkName c) = some c.content := by
  induction cs with
  | nil => intro c hc; cases hc
  | cons a cs ih =>
      intro c hc
      rcases List.pairwise_cons.mp hnd with ⟨ha, hcs⟩
      rcases List.mem_cons.mp hc with rfl | hc2
      · simp [lookupEntry, chunkEntry, List.find?, chunkName]
      · have hne : (chunkName a == chunkName c) = false :=
          beq_eq_false_iff_ne.mpr (ha c hc2)
        simp only [lookupEntry, List.map_cons, List.find?]
        rw [show (chunkEntry a).1 = chunkName a from rfl, hne]
        exact ih hcs c hc2

/-- C1: on a directory holding chunk files with fixed width distinct
timestamps, finalize succeeds and its input order is the lexicographic
filename sort, which equals ascending numeric timestamp order (not arrival
order): the output file is the byte concatenation of the chunks sorted by
timestamp. -/
theorem finish_concat_in_ts_order (w : Nat) (cs : List Chunk) (hne : cs ≠ [])
    (hw : ∀ c ∈ cs, 10 ^ w ≤ c.ts ∧ c.ts < 10 ^ (w + 1))
    (hwebm : ∀ c ∈ cs, isWebmName c.orig = true)
    (hdist : cs.Pairwise (fun a b => a.ts ≠ b.ts)) :
    finishInputs (cs.map chunkEntry) = (sortByTs cs).map chunkName ∧
      finishUpload (some (cs.map chunkEntry)) =
        (200, some (setEntry (cs.map chunkEntry) "final_video.webm"
          ((sortByTs cs).map (fun c => c.content)).flatten)) := by
  have hin : finishInputs (cs.map chunkEntry) = (sortByTs cs).map chunkName := by
    unfold finishInputs
    rw [webmNames_chunks cs hwebm, sortNames_chunks w cs hw hdist]
  have hbytes : finishBytes (cs.map chunkEntry) =
      ((sortByTs cs).map (fun c => c.content)).flatten := by
    unfold finishBytes
    rw [hin]
    congr 1
    rw [List.map_map]
    apply List.map_congr_left
    intro c hc
    have hc2 : c ∈ cs := (List.mem_insertionSort _).mp hc
    have hl := lookup_chunkEntry cs (chunkName_pairwise_ne w cs hw hdist) c hc2
    simp [Function.comp, hl]
  refine ⟨hin, ?_⟩
  have hlen : (finishInputs (cs.map chunkEntry)).length ≠ 0 := by
    rw [hin, List.length_map, sortByTs, List.length_insertionSort]
    exact fun h => hne (List.length_eq_zero.mp h)
  show (if (finishInputs (cs.map chunkEntry)).length = 0 then _ else _) = _
  rw [if_neg hlen, hbytes]

/-- Witness for `finish_concat_in_ts_order`: the three chunks of the spec
example, arriving in the order a, b, c while the timestamp order is a, c, b. -/
theorem finish_concat_in_ts_order_witness :
    ([⟨1700000000000, "a.webm", [1]⟩, ⟨1700000000050, "b.webm", [2]⟩,
        ⟨1700000000010, "c.webm", [3]⟩] : List Chunk) ≠ [] ∧
      sortByTs [⟨1700000000000, "a.webm", [1]⟩, ⟨1700000000050, "b.webm", [2]⟩,
          ⟨1700000000010, "c.webm", [3]⟩] =
        [⟨1700000000000, "a.webm", [1]⟩, ⟨1700000000010, "c.webm", [3]⟩,
          ⟨1700000000050, "b.webm", [2]⟩] ∧
      ((sortByTs [⟨1700000000000, "a.webm", [1]⟩, ⟨1700000000050, "b.webm", [2]⟩,
          ⟨1700000000010, "c.webm", [3]⟩]).map (fun c => c.content)).flatten = [1, 3, 2] ∧
      finishUpload (some ([⟨1700000000000, "a.webm", [1]⟩, ⟨1700000000050, "b.webm", [2]⟩,
          ⟨1700000000010, "c.webm", [3]⟩].map chunkEntry)) =
        (200, some (setEntry ([⟨1700000000000, "a.webm", [1]⟩, ⟨1700000000050, "b.webm", [2]⟩,
          ⟨1700000000010, "c.webm", [3]⟩].map chunkEntry) "final_video.webm"
          ((sortByTs [⟨1700000000000, "a.webm", [1]⟩, ⟨1700000000050, "b.webm", [2]⟩,
            ⟨1700000000010, "c.webm", [3]⟩]).map (fun c => c.content)).flatten)) :=
  ⟨by decide, by decide, by decide,
    (finish_concat_in_ts_order 12
      [⟨1700000000000, "a.webm", [1]⟩, ⟨1700000000050, "b.webm", [2]⟩,
        ⟨1700000000010, "c.webm", [3]⟩]
      (by decide) (by decide)
      (by decide) (by decide)).2⟩

/-! ## Chunk persistence across finalize and doctor deletion -/

theorem lookupEntry_setEntry_ne {α : Type} (d : List (String × α)) (k m : String) (v : α)
    (h : m ≠ k) : lookupEntry (setEntry d k v) m = lookupEntry d m := by
  induction d with
  | nil =>
      simp only [setEntry, lookupEntry, List.find?]
      rw [show (k == m) = false from beq_eq_false_iff_ne.mpr (fun e => h e.symm)]
  | cons e es ih =>
      by_cases he : e.1 = k
      · simp only [setEntry, he, if_true, lookupEntry, List.find?]
        rw [show (k == m) = false from beq_eq_false_iff_ne.mpr (fun e2 => h e2.symm)]
      · simp only [setEntry, he, if_false, lookupEntry, List.find?]
        cases hm : (e.1 == m) with
        | true => rfl
        | false => exact ih

theorem delFiles_no_bad (d : Dir) : delFiles (fun _ => false) d = Except.ok () := by
  induction d with
  | nil => rfl
  | cons e es ih => simp [delFiles, ih]

/-- C8 (amended): a successful finalize does not delete the chunk files: the
post state is the directory with only final_video.webm added or overwritten,
every other file unchanged; doctor deletion (variant B, no fs error) removes
the whole videoId directory, chunks included. -/
theorem finalize_keeps_chunks_delete_removes (d : Dir)
    (hchunks : (finishInputs d).length ≠ 0)
    (store : Store) (id : String) (doc : DoctorDoc)
    (hdoc : findById store id = some doc) :
    (finishUpload (some d) = (200, some (setEntry d "final_video.webm" (finishBytes d))) ∧
      ∀ m, m ≠ "final_video.webm" →
        lookupEntry (setEntry d "final_video.webm" (finishBytes d)) m = lookupEntry d m) ∧
      deleteDoctorB store (some d) (fun _ => false) id = (200, removeById store id, none) := by
  refine ⟨⟨?_, ?_⟩, ?_⟩
  · show (if _ then _ else _) = _
    rw [if_neg hchunks]
  · exact fun m hm => lookupEntry_setEntry_ne d _ m _ hm
  · simp only [deleteDoctorB, hdoc, delFiles_no_bad]

/-- Witness for `finalize_keeps_chunks_delete_removes` on a one chunk
directory owned by a one doctor store. -/
theorem finalize_keeps_chunks_delete_removes_witness :
    (finishInputs [("100-a.webm", [7])]).length ≠ 0 ∧
      finishUpload (some [("100-a.webm", [7])]) =
        (200, some (setEntry [("100-a.webm", [7])] "final_video.webm"
          (finishBytes [("100-a.webm", [7])]))) ∧
      deleteDoctorB [("d0", mkDoctor samplePayload "v0")] (some [("100-a.webm", [7])])
          (fun _ => false) "d0" =
        (200, removeById [("d0", mkDoctor samplePayload "v0")] "d0", none) :=
  ⟨by decide,
    (finalize_keeps_chunks_delete_removes [("100-a.webm", [7])] (by decide)
      [("d0", mkDoctor samplePayload "v0")] "d0" (mkDoctor samplePayload "v0")
      (by decide)).1.1,
    (finalize_keeps_chunks_delete_removes [("100-a.webm", [7])] (by decide)
      [("d0", mkDoctor samplePayload "v0")] "d0" (mkDoctor samplePayload "v0")
      (by decide)).2⟩

/-- C8 counterexample: after a successful finalize of a directory holding one
chunk, that chunk file is still on disk, against the claimed deletion. -/
theorem finish_leaves_chunk :
    finishUpload (some [("100-a.webm", [7])]) =
        (200, some [("100-a.webm", [7]), ("final_video.webm", [7])]) ∧
      lookupEntry [("100-a.webm", [7]), ("final_video.webm", [7])] "100-a.webm" = some [7] := by
  decide

/-- C9: the finalize input set is exactly the directory files ending in .webm
with no exclusion of the output name: whenever final_video.webm is present it
is among the concatenated inputs and finalize does not answer NoChunks; in
particular a directory left with only a previously produced final_video.webm
finalizes again with status 200, rewriting the same bytes. -/
theorem finish_includes_final_video (d : Dir) (hmem : "final_video.webm" ∈ dirNames d) :
    "final_video.webm" ∈ finishInputs d ∧ (finishUpload (some d)).1 = 200 ∧
      ∀ c : Bytes, finishUpload (some [("final_video.webm", c)]) =
        (200, some [("final_video.webm", c)]) := by
  have hmem2 : "final_video.webm" ∈ finishInputs d := by
    unfold finishInputs sortNames
    rw [List.mem_insertionSort]
    exact List.mem_filter.mpr ⟨hmem, by decide⟩
  refine ⟨hmem2, ?_, ?_⟩
  · have hlen : (finishInputs d).length ≠ 0 := by
      intro h
      rw [List.length_eq_zero] at h
      rw [h] at hmem2
      cases hmem2
    simp only [finishUpload]
    rw [if_neg hlen]
  · intro c
    have h1 : finishInputs [("final_video.webm", c)] = ["final_video.webm"] := rfl
    have h2 : finishBytes [("final_video.webm", c)] = c := by
      simp [finishBytes, h1, lookupEntry, List.find?]
    have h3 : setEntry [("final_video.webm", c)] "final_video.webm" c =
        [("final_video.webm", c)] := by
      simp [setEntry]
    simp only [finishUpload]
    rw [h1]
    rw [if_neg (by decide : ¬(["final_video.webm"] : List String).length = 0)]
    rw [h2, h3]

/-- Witness for `finish_includes_final_video`: a directory holding only a
previous output file. -/
theorem finish_includes_final_video_witness :
    "final_video.webm" ∈ dirNames [("final_video.webm", [5])] ∧
      "final_video.webm" ∈ finishInputs [("final_video.webm", [5])] ∧
      (finishUpload (some [("final_video.webm", [5])])).1 = 200 ∧
      finishUpload (some [("final_video.webm", [5])]) =
        (200, some [("final_video.webm", [5])]) :=
  ⟨by decide,
    (finish_includes_final_video [("final_video.webm", [5])] (by decide)).1,
    (finish_includes_final_video [("final_video.webm", [5])] (by decide)).2.1,
    (finish_includes_final_video [("final_video.webm", [5])] (by decide)).2.2 [5]⟩

/-! ## Path construction from the raw videoId parameter -/

/-- path.join normalization of an absolute path, one segment at a time: empty
and dot segments vanish, a dotdot segment pops the previous one. -/
def normStep (acc : List String) (seg : String) : List String :=
  if seg = "." ∨ seg = "" then acc
  else if seg = ".." then acc.dropLast
  else acc ++ [seg]

/-- Join a segment sequence into a normalized absolute path. -/
def normJoin (segs : List String) : List String := segs.foldl normStep []

/-- The slash separated segments of the raw videoId parameter. -/
def vidSegs (vid : String) : List String :=
  (splitOnChar '/' vid.data).map (fun l => (⟨l⟩ : String))

/-- The directory every video route touches:
path.join(appdir, videos, videoId) with the raw path parameter spliced in
(src/server.js lines 148, 172 and 209). -/
def videoDirSegs (appDir : List String) (vid : String) : List String :=
  normJoin (appDir ++ "videos" :: vidSegs vid)

/-- The whole filesystem: a directory state per absolute path. -/
abbrev FS := List String → FsDir

/-- The multer diskStorage write of one chunk (src/server.js lines 146 to
158): create the directory when missing, write the timestamp named file. -/
def uploadChunk (ts : Nat) (orig : String) (c : Bytes) (s : FsDir) : FsDir :=
  some (setEntry (s.getD []) (tsName ts orig) c)

/-- POST /upload/:videoId on the whole filesystem. -/
def uploadFS (appDir : List String) (vid : String) (ts : Nat) (orig : String) (c : Bytes)
    (fs : FS) : FS :=
  fun q => if q = videoDirSegs appDir vid then uploadChunk ts orig c (fs q) else fs q

/-- POST /finishUpload/:videoId on the whole filesystem. -/
def finishUploadFS (appDir : List String) (vid : String) (fs : FS) : Nat × FS :=
  ((finishUpload (fs (videoDirSegs appDir vid))).1,
    fun q => if q = videoDirSegs appDir vid then (finishUpload (fs q)).2 else fs q)

/-- DELETE /deleteVideo/:videoId on the whole filesystem. -/
def deleteVideoFS (appDir : List String) (bad : String → Bool) (vid : String) (fs : FS) :
    Nat × FS :=
  ((deleteVideo bad (fs (videoDirSegs appDir vid))).1,
    fun q => if q = videoDirSegs appDir vid then (deleteVideo bad (fs q)).2 else fs q)

/-- Normalization is the identity on a path free of special segments. -/
theorem normJoin_clean (app : List String)
    (h : ∀ s ∈ app, s ≠ "." ∧ s ≠ "" ∧ s ≠ "..") :
    ∀ acc, List.foldl normStep acc app = acc ++ app := by
  induction app with
  | nil => intro acc; simp
  | cons x xs ih =>
      intro acc
      have hx := h x (List.mem_cons_self x xs)
      have e : normStep acc x = acc ++ [x] := by
        unfold normStep
        rw [if_neg (by tauto), if_neg hx.2.2]
      rw [List.foldl_cons, e, ih (fun s hs => h s (List.mem_cons_of_mem x hs))]
      simp

/-- C10: the video routes all operate on path.join(appdir, videos, videoId)
with the raw parameter unsanitized: a videoId of two dots resolves to the
application directory itself, which is not under the videos tree, and
delete-video invoked with it deletes that outside directory while upload with
it writes a file there. -/
theorem videoId_path_escape (appDir : List String)
    (hclean : ∀ s ∈ appDir, s ≠ "." ∧ s ≠ "" ∧ s ≠ "..") :
    videoDirSegs appDir ".." = appDir ∧
      (∀ rest : List String, videoDirSegs appDir ".." ≠ appDir ++ "videos" :: rest) ∧
      (∀ bad fs, (deleteVideoFS appDir bad ".." fs).2 appDir =
        (deleteVideo bad (fs appDir)).2) ∧
      (∀ bad fs, fs appDir = some [] →
        (deleteVideoFS appDir bad ".." fs).1 = 200 ∧
          (deleteVideoFS appDir bad ".." fs).2 appDir = none) ∧
      (∀ ts orig c fs, (uploadFS appDir ".." ts orig c fs) appDir =
        uploadChunk ts orig c (fs appDir)) := by
  have hvid : vidSegs ".." = [".."] := rfl
  have hmain : videoDirSegs appDir ".." = appDir := by
    unfold videoDirSegs normJoin
    rw [hvid, List.foldl_append, normJoin_clean appDir hclean []]
    show normStep (normStep ([] ++ appDir) "videos") ".." = appDir
    rw [List.nil_append]
    have e1 : normStep appDir "videos" = appDir ++ ["videos"] := by
      unfold normStep
      rw [if_neg (by simp), if_neg (by simp)]
    rw [e1]
    unfold normStep
    rw [if_neg (by simp), if_pos rfl, List.dropLast_concat]
  refine ⟨hmain, ?_, ?_, ?_, ?_⟩
  · intro rest he
    rw [hmain] at he
    have := congrArg List.length he
    simp at this
  · intro bad fs
    unfold deleteVideoFS
    rw [hmain]
    simp
  · intro bad fs hfs
    unfold deleteVideoFS
    rw [hmain]
    simp [deleteVideo, delFiles, hfs]
  · intro ts orig c fs
    unfold uploadFS
    rw [hmain]
    simp

/-- Witness for `videoId_path_escape`: application directory app, one empty
directory stored at it; delete-video with videoId dotdot removes it. -/
theorem videoId_path_escape_witness :
    videoDirSegs ["app"] ".." = ["app"] ∧
      videoDirSegs ["app"] ".." ≠ ["app", "videos"] ∧
      (deleteVideoFS ["app"] (fun _ => false) ".."
        (fun q => if q = ["app"] then some [] else none)).1 = 200 ∧
      (deleteVideoFS ["app"] (fun _ => false) ".."
        (fun q => if q = ["app"] then some [] else none)).2 ["app"] = none := by
  have h := videoId_path_escape ["app"] (by decide)
  have h4 := h.2.2.2.1 (fun _ => false)
    (fun q => if q = ["app"] then some [] else none) (by simp)
  exact ⟨h.1, h.2.1 [], h4.1, h4.2⟩

end DoctorVideo
